import Mathlib

/-!
Shallow embedding of the bankrot-parser pipeline (src/main.py) and proofs of
its specification claims.  Pure Python string/dict/set operations are embedded
as Lean functions over `String`, assoc lists and `Finset`; page markup is
embedded as a structured `Soup` value holding exactly the elements the
extractor queries; file contents are embedded as a `FileState` over a JSON
value model.
-/

set_option maxHeartbeats 1000000
set_option maxRecDepth 8000

namespace Bankrot

/-! ### Python string primitives -/

/-- Model of Python `str.strip()` on a list of characters: drop whitespace
from both ends. -/
def pyStripList (l : List Char) : List Char :=
  (l.dropWhile Char.isWhitespace).rdropWhile Char.isWhitespace

/-- Model of Python `str.strip()`. -/
def pyStrip (s : String) : String :=
  ⟨pyStripList s.data⟩

/-- Model of Python `str.strip(chars)` for an explicit character set. -/
def pyStripChars (chars : List Char) (s : String) : String :=
  ⟨(s.data.dropWhile (chars.contains ·)).rdropWhile (chars.contains ·)⟩

/-- Lower-casing of a single character, covering the ASCII and Cyrillic
ranges used by the source's `.lower()` calls and `re.IGNORECASE` patterns. -/
def lowerChar (c : Char) : Char :=
  if 'A' ≤ c ∧ c ≤ 'Z' then Char.ofNat (c.toNat + 32)
  else if 'А' ≤ c ∧ c ≤ 'Я' then Char.ofNat (c.toNat + 32)
  else if c = 'Ё' then 'ё'
  else c

/-- Upper-casing of a single character (ASCII and Cyrillic). -/
def upperChar (c : Char) : Char :=
  if 'a' ≤ c ∧ c ≤ 'z' then Char.ofNat (c.toNat - 32)
  else if 'а' ≤ c ∧ c ≤ 'я' then Char.ofNat (c.toNat - 32)
  else if c = 'ё' then 'Ё'
  else c

/-- Model of Python `str.lower()`. -/
def pyLower (s : String) : String :=
  ⟨s.data.map lowerChar⟩

/-- Model of Python `str.upper()`. -/
def pyUpper (s : String) : String :=
  ⟨s.data.map upperChar⟩

/-- Model of Python `str.startswith(pre)`. -/
def pyStartsWith (s pre : String) : Bool :=
  pre.data.isPrefixOf s.data

/-- Model of Python `s.split("#")[0]`: the prefix before the first `#`. -/
def pyTakeUntilHash (s : String) : String :=
  ⟨s.data.takeWhile (fun c => c != '#')⟩

/-- Word accumulator of Python `str.split()` (no argument): split on
whitespace runs, dropping empty words. -/
def pySplitWsGo : List Char → List Char → List (List Char)
  | cur, [] => if cur.isEmpty then [] else [cur.reverse]
  | cur, c :: rest =>
    if c.isWhitespace then
      if cur.isEmpty then pySplitWsGo [] rest
      else cur.reverse :: pySplitWsGo [] rest
    else pySplitWsGo (c :: cur) rest

/-- Model of Python `str.split()`. -/
def pyWords (s : String) : List String :=
  (pySplitWsGo [] s.data).map (fun w => ⟨w⟩)

/-- Model of Python `sep.join(words)`. -/
def pyJoin (sep : String) : List String → String
  | [] => ""
  | [w] => w
  | w :: rest => w ++ sep ++ pyJoin sep rest

/-- Model of Python `" ".join(text.split())`: collapse all whitespace runs to
single spaces and trim the ends. -/
def pyWsNormalize (s : String) : String :=
  pyJoin " " (pyWords s)

/-- Last-binding lookup in an association list: Python `dict` built by
repeated assignment keeps the value of the last occurrence of a key. -/
def lookupLast {α : Type} (d : List (String × α)) (k : String) : Option α :=
  (d.reverse.find? (fun p => p.1 == k)).map (·.2)

/-- Model of Python `dict.get(k, default)` over an assignment list. -/
def pyGet (d : List (String × String)) (k dflt : String) : String :=
  (lookupLast d k).getD dflt

/-- Substring test (Python `needle in haystack`) on char lists. -/
def hasInfix (needle : List Char) : List Char → Bool
  | [] => needle.isPrefixOf []
  | c :: t => needle.isPrefixOf (c :: t) || hasInfix needle t

/-! ### JSON value model and file states -/

/-- Scalar JSON values (the hashable ones: Python `set()` can hold exactly
these).  Numbers are modelled as integers; none of the verified claims
depends on float values. -/
inductive JScalar : Type where
  | jnull : JScalar
  | jbool : Bool → JScalar
  | jnum : Int → JScalar
  | jstr : String → JScalar
deriving DecidableEq, Repr

/-- Model of a parsed JSON value (`json.load` result). -/
inductive JVal : Type where
  | scalar : JScalar → JVal
  | jarr : List JVal → JVal
  | jobj : List (String × JVal) → JVal

/-- Shorthand for a JSON string value. -/
def JVal.jstr (s : String) : JVal := .scalar (.jstr s)

/-- Python `set()` hashes its elements: parsed JSON lists and dicts are
unhashable and make `set(...)` raise `TypeError`; this partial projection
returns the scalar exactly for hashable values. -/
def JVal.toScalar : JVal → Option JScalar
  | .scalar s => some s
  | .jarr _ => none
  | .jobj _ => none

/-- Model of Python `set(elems)` over parsed JSON values: `some` set when all
elements are hashable, `none` when `set(...)` raises `TypeError`. -/
def pySetOf (l : List JVal) : Option (Finset JScalar) :=
  (l.mapM JVal.toScalar).map List.toFinset

/-- State of a file as seen by the loading code: absent on disk, present but
unreadable (`open`/`read` raises), present but not valid JSON (`json.load`
raises), or parsed JSON content. -/
inductive FileState : Type where
  | missing : FileState
  | unreadable : FileState
  | invalid : FileState
  | json : JVal → FileState

/-! ### SeenLotsStore -/

/-- Model of `SeenLotsStore.load`: a missing file yields the empty set; any
exception while opening, parsing, or building the `set(...)` (unhashable
elements) yields the empty set; a JSON array yields the set of its elements;
a JSON object with a `"seen"` list yields the set of that list's elements;
any other JSON shape yields the empty set. -/
def seenLoad (fs : FileState) : Finset JScalar :=
  match fs with
  | .missing => ∅
  | .unreadable => ∅
  | .invalid => ∅
  | .json v =>
    match v with
    | .jarr l => (pySetOf l).getD ∅
    | .jobj fields =>
      match lookupLast fields "seen" with
      | some (.jarr l) => (pySetOf l).getD ∅
      | _ => ∅
    | _ => ∅

/-- Model of `SeenLotsStore.add_many`: union in each url in order, skipping
falsy (empty) strings. -/
def add_many : Finset String → List String → Finset String
  | seen, [] => seen
  | seen, u :: t => add_many (if u ≠ "" then insert u seen else seen) t

/-- Model of the payload written by `SeenLotsStore.save`:
`sorted(self.seen)`. -/
def seenSavePayload (seen : Finset String) : List String :=
  seen.sort (· ≤ ·)

/-- Model of the JSON document written by `SeenLotsStore.save` (a JSON array
of the sorted identifiers); the temp-file/rename discipline is I/O and is not
part of the value model. -/
def seenSaveJson (seen : Finset String) : JVal :=
  .jarr ((seenSavePayload seen).map .jstr)

/-! ### Cookies -/

/-- Model of `load_auth_cookies`: a falsy/absent path yields `[]`; exceptions
while reading or parsing yield `[]`; a JSON array is returned as-is; any
other JSON shape yields `[]`. -/
def load_auth_cookies (fs : FileState) : List JVal :=
  match fs with
  | .missing => []
  | .unreadable => []
  | .invalid => []
  | .json (.jarr l) => l
  | .json _ => []

/-- Model of the `__main__` precondition check on `auth_cookies.json`: when
the file does not exist the script raises `SystemExit(1)` before any network
activity; otherwise it proceeds. -/
def mainCookieGuard (cookiesPresent : Bool) : Except Nat Unit :=
  if cookiesPresent then .ok () else .error 1

/-! ### Regex scanners

The source uses `re.search` with `re.IGNORECASE`; each concrete pattern is
embedded as a deterministic scanner over `List Char`.  `re.search` returns
the leftmost match; the concrete patterns contain no genuinely backtracking
constructs (every `\w*`/`[ау]?` is followed by a token disjoint from it), so
a greedy one-pass matcher per start position is exact. -/

/-- Case-insensitive literal match (the literal is given lower-case);
returns the rest of the input after the literal. -/
def matchLitCI : List Char → List Char → Option (List Char)
  | [], cs => some cs
  | _ :: _, [] => none
  | p :: ps, c :: cs => if lowerChar c = p then matchLitCI ps cs else none

/-- Regex `\s*`. -/
def skipWs (cs : List Char) : List Char := cs.dropWhile Char.isWhitespace

/-- Regex `\s+` (greedy; always followed by a non-whitespace token in the
embedded patterns). -/
def matchWs1 (cs : List Char) : Option (List Char) :=
  match cs with
  | c :: rest => if c.isWhitespace then some (rest.dropWhile Char.isWhitespace) else none
  | [] => none

/-- Regex `\d+`, returning the captured digits and the rest. -/
def matchDigits1 (cs : List Char) : Option (List Char × List Char) :=
  let ds := cs.takeWhile Char.isDigit
  if ds.isEmpty then none else some (ds, cs.drop ds.length)

/-- Python `\w` for the alphabets appearing in the source's patterns. -/
def isWordChar (c : Char) : Bool :=
  c.isAlphanum || c = '_' || ('а' ≤ c && c ≤ 'я') || ('А' ≤ c && c ≤ 'Я') ||
    c = 'ё' || c = 'Ё'

/-- Regex `\w*` (greedy; always followed by `\s+` in the embedded
patterns). -/
def skipWord (cs : List Char) : List Char := cs.dropWhile isWordChar

/-- Match `<lit>\s*№\s*(\d+)` at the current position, returning the
captured digit group. -/
def tryNumPatternAt (lit : List Char) (cs : List Char) : Option String :=
  match matchLitCI lit cs with
  | none => none
  | some cs₁ =>
    match skipWs cs₁ with
    | '№' :: rest =>
      match matchDigits1 (skipWs rest) with
      | some (ds, _) => some ⟨ds⟩
      | none => none
    | _ => none

/-- Leftmost search (`re.search`) for `<lit>\s*№\s*(\d+)`. -/
def searchNumPattern (lit : List Char) : List Char → Option String
  | [] => tryNumPatternAt lit []
  | c :: t =>
    match tryNumPatternAt lit (c :: t) with
    | some r => some r
    | none => searchNumPattern lit t

/-- Terminator `начальн\w*\s+цен` of the address lookaheads. -/
def termNachCen (cs : List Char) : Bool :=
  match matchLitCI "начальн".data cs with
  | none => false
  | some cs₁ =>
    match matchWs1 (skipWord cs₁) with
    | none => false
    | some cs₂ => (matchLitCI "цен".data cs₂).isSome

/-- Terminator `задаток` of the address lookaheads. -/
def termZadatok (cs : List Char) : Bool :=
  (matchLitCI "задаток".data cs).isSome

/-- Terminator `кадастров\w*\s+номер` of the first two address
lookaheads. -/
def termKadastr (cs : List Char) : Bool :=
  match matchLitCI "кадастров".data cs with
  | none => false
  | some cs₁ =>
    match matchWs1 (skipWord cs₁) with
    | none => false
    | some cs₂ => (matchLitCI "номер".data cs₂).isSome

/-- Lookahead `(?=(?:начальн\w*\s+цен|задаток|кадастров\w*\s+номер|$))`. -/
def termFull (cs : List Char) : Bool :=
  termNachCen cs || termZadatok cs || termKadastr cs || cs.isEmpty

/-- Lookahead `(?=(?:начальн\w*\s+цен|задаток|$))`. -/
def termShort (cs : List Char) : Bool :=
  termNachCen cs || termZadatok cs || cs.isEmpty

/-- Lazy capture `(.+?)(?=term)`: consume the minimal non-empty run of
non-newline characters after which the lookahead holds. -/
def lazyCapture (isTerm : List Char → Bool) : List Char → Option (List Char)
  | [] => none
  | c :: rest =>
    if c = '\n' then none
    else if isTerm rest then some [c]
    else
      match lazyCapture isTerm rest with
      | some tail => some (c :: tail)
      | none => none

/-- Match `адрес[ау]?\s*:\s*` and return the rest.  `[ау]?` is greedy; the
following token `\s*:` is disjoint from `а`/`у`, so taking the optional
character whenever it is present is exact. -/
def matchAdresTail (cs : List Char) : Option (List Char) :=
  match matchLitCI "адрес".data cs with
  | none => none
  | some cs₁ =>
    let cs₂ :=
      match cs₁ with
      | c :: rest => if lowerChar c = 'а' ∨ lowerChar c = 'у' then rest else cs₁
      | [] => cs₁
    match skipWs cs₂ with
    | ':' :: cs₃ => some (skipWs cs₃)
    | _ => none

/-- Address pattern 1 at a position:
`(?:расположен\w*|наход\w*)\s+по\s+адрес[ау]?\s*:\s*(.+?)(?=…)`. -/
def tryPattern1At (cs : List Char) : Option (List Char) :=
  let start :=
    match matchLitCI "расположен".data cs with
    | some r => some r
    | none => matchLitCI "наход".data cs
  match start with
  | none => none
  | some cs₁ =>
    match matchWs1 (skipWord cs₁) with
    | none => none
    | some cs₂ =>
      match matchLitCI "по".data cs₂ with
      | none => none
      | some cs₃ =>
        match matchWs1 cs₃ with
        | none => none
        | some cs₄ =>
          match matchAdresTail cs₄ with
          | none => none
          | some cs₅ => lazyCapture termFull cs₅

/-- Address pattern 2 at a position: `по\s+адрес[ау]?\s*:\s*(.+?)(?=…)`. -/
def tryPattern2At (cs : List Char) : Option (List Char) :=
  match matchLitCI "по".data cs with
  | none => none
  | some cs₁ =>
    match matchWs1 cs₁ with
    | none => none
    | some cs₂ =>
      match matchAdresTail cs₂ with
      | none => none
      | some cs₃ => lazyCapture termFull cs₃

/-- Address pattern 3 at a position: `местонахождение\s*:\s*(.+?)(?=…)`. -/
def tryPattern3At (cs : List Char) : Option (List Char) :=
  match matchLitCI "местонахождение".data cs with
  | none => none
  | some cs₁ =>
    match skipWs cs₁ with
    | ':' :: cs₂ => lazyCapture termShort (skipWs cs₂)
    | _ => none

/-- Leftmost search for a capturing pattern. -/
def searchCapture (tryAt : List Char → Option (List Char)) : List Char → Option (List Char)
  | [] => tryAt []
  | c :: t =>
    match tryAt (c :: t) with
    | some r => some r
    | none => searchCapture tryAt t

/-! ### Markup model -/

/-- One `div.lot-info__item`: optional `.lot-info__subtitle` and
`.lot-info__value` texts. -/
structure InfoItem where
  sub : Option String
  val : Option String

/-- One `div.lot-info__wrapper`: optional `h3.lot-info__title` text plus its
items. -/
structure InfoWrapper where
  title : Option String
  items : List InfoItem

/-- One `div.lot-details-info__item`: optional subtitle text, optional
`.lot-details-info__value` text, optional first `span`/`div`/`a` fallback
text, and an optional `a[data-number]` anchor as
(attribute value, anchor text). -/
structure DetailsItem where
  sub : Option String
  val : Option String
  fallbackEl : Option String
  dataAnchor : Option (String × String)

/-- One anchor inside the description paragraph: the `xlink:href` of its
`use` child (`""` when absent) and the anchor text. -/
structure DescAnchor where
  useHref : String
  text : String

/-- The `p[itemprop="description"]` element: its text and its anchors. -/
structure DescP where
  text : String
  anchors : List DescAnchor

/-- The `div.lot__content.text-break` element. -/
structure LotContent where
  descP : Option DescP
  ps : List String

/-- One `a.lot-documents__link` anchor: `href` attribute value (`""` when
absent, as `(a.get("href") or "")`) and anchor text. -/
structure DocAnchor where
  href : String
  name : String

/-- A rendered detail page reduced to exactly the elements the extractor
queries. -/
structure Soup where
  helpSpan : Option String
  statusSpan : Option String
  wrappers : List InfoWrapper
  details : List DetailsItem
  content : Option LotContent
  docAnchors : List DocAnchor

/-! ### Field extractors (`BankrotParser` methods) -/

/-- The wrapper selection of `BankrotParser._parse_info_wrapper`: the first
`div.lot-info__wrapper` whose `h3.lot-info__title` text matches the
requested title after stripping and lower-casing both sides. -/
def selectInfoWrapper (soup : Soup) (titleText : String) : Option InfoWrapper :=
  soup.wrappers.find? (fun w =>
    match w.title with
    | some t => pyLower (pyStrip t) == pyLower (pyStrip titleText)
    | none => false)

/-- Model of `BankrotParser._parse_info_wrapper`: the item dictionary of the
first wrapper whose title matches the requested title case-insensitively,
else the empty dictionary. -/
def parse_info_wrapper (soup : Soup) (titleText : String) : List (String × String) :=
  match selectInfoWrapper soup titleText with
  | some w =>
    w.items.filterMap (fun it =>
      match it.sub, it.val with
      | some k, some v => some (pyStrip k, pyStrip v)
      | _, _ => none)
  | none => []

/-- Model of `BankrotParser._extract_lot_and_trade_numbers`: two independent
regex captures `Лот\s*№\s*(\d+)` and `торги\s*№\s*(\d+)` over the
`span.lot__help` text, each defaulting to the not-found sentinel. -/
def extract_lot_and_trade_numbers (soup : Soup) : String × String :=
  match soup.helpSpan with
  | none => ("Не найдено", "Не найдено")
  | some text =>
    ((searchNumPattern "лот".data text.data).getD "Не найдено",
     (searchNumPattern "торги".data text.data).getD "Не найдено")

/-- Model of `BankrotParser._extract_status`. -/
def extract_status (soup : Soup) : String :=
  soup.statusSpan.getD "Не найдено"

/-- Model of `BankrotParser._extract_details_info`. -/
def extract_details_info (soup : Soup) : List (String × String) :=
  soup.details.filterMap (fun it =>
    match it.sub with
    | none => none
    | some subText =>
      let key := pyStrip subText
      match it.val <|> it.fallbackEl with
      | none => none
      | some valText =>
        match it.dataAnchor with
        | some (attr, txt) =>
          if pyUpper (pyStrip key) = "ИНН" ∨ pyUpper (pyStrip key) = "ОГРН" then
            some (key, if attr ≠ "" then attr else pyStrip txt)
          else
            some (key, pyStrip valText)
        | none => some (key, pyStrip valText))

/-- Truthy dictionary access: Python `d.get(k)` used in an `or` chain, where
a missing key or an empty-string value falls through. -/
def getTruthy (d : List (String × String)) (k : String) : Option String :=
  match lookupLast d k with
  | some v => if v = "" then none else some v
  | none => none

/-- Model of `BankrotParser._extract_debtor_inn_contact`. -/
def extract_debtor_inn_contact (soup : Soup) : String × String × String :=
  let d := extract_details_info soup
  let debtor :=
    (getTruthy d "Наименование / ФИО" <|> getTruthy d "Полное наименование" <|>
      getTruthy d "Наименование" <|> getTruthy d "Сведения о должнике").getD "Не найдено"
  (debtor, pyGet d "ИНН" "Не найдено", pyGet d "Контактное лицо" "Не найдено")

/-- Model of `BankrotParser._extract_address_from_text`: three prioritized
leftmost regex searches over the whitespace-normalized text, each stripped
of surrounding ` ,.;`, else the not-found sentinel. -/
def extract_address_from_text (text : String) : String :=
  if text = "" then "Не найдено"
  else
    let t := pyWsNormalize text
    match searchCapture tryPattern1At t.data with
    | some g => pyStripChars [' ', ',', '.', ';'] ⟨g⟩
    | none =>
      match searchCapture tryPattern2At t.data with
      | some g => pyStripChars [' ', ',', '.', ';'] ⟨g⟩
      | none =>
        match searchCapture tryPattern3At t.data with
        | some g => pyStripChars [' ', ',', '.', ';'] ⟨g⟩
        | none => "Не найдено"

/-- Model of `BankrotParser._extract_address_from_desc_p`: the text of the
first anchor holding an `icon-location` use-href, else the regex fallback
over the paragraph text. -/
def extract_address_from_desc_p (p : DescP) : String :=
  match p.anchors.find? (fun a => hasInfix "icon-location".data a.useHref.data) with
  | some a =>
    let addr := pyStrip a.text
    if addr ≠ "" then addr else "Не найдено"
  | none => extract_address_from_text p.text

/-- Model of `BankrotParser._extract_description_and_address`. -/
def extract_description_and_address (soup : Soup) : String × String :=
  match soup.content with
  | none => ("Не найдено", "Не найдено")
  | some content =>
    match content.descP with
    | some p =>
      let descText := pyStrip p.text
      (if descText ≠ "" then descText else "Не найдено", extract_address_from_desc_p p)
    | none =>
      let full :=
        pyJoin "\n" ((content.ps.filter (fun s => pyStrip s ≠ "")).map pyStrip)
      (if pyStrip full ≠ "" then full else "Не найдено", extract_address_from_text full)

/-- Dedup of document pairs by URL, preserving first-seen order. -/
def dedupByHref (docs : List (String × String)) : List (String × String) :=
  (docs.foldl
    (fun (acc : List (String × String) × List String) d =>
      if acc.2.contains d.2 then acc else (acc.1 ++ [d], acc.2 ++ [d.2]))
    ([], [])).1

/-- Model of `BankrotParser._extract_documents`. -/
def extract_documents (soup : Soup) : List (String × String) :=
  dedupByHref (soup.docAnchors.filterMap (fun a =>
    let href := pyStrip a.href
    let name := pyStrip a.name
    if href ≠ "" ∧ name ≠ "" then some (name, href) else none))

/-! ### parse_lot_page -/

/-- The record dictionary built by `BankrotParser.parse_lot_page`, with one
field per output column plus the internal `__docs` list. -/
structure LotRow where
  auctionLot : String
  address : String
  startPrice : String
  step : String
  deposit : String
  tradePeriod : String
  documentsCell : String
  status : String
  debtorInfo : String
  description : String
  docs : List (String × String)
deriving DecidableEq, Repr

/-- The row dictionary of `parse_lot_page` before the empty-record gate. -/
def buildLotRow (soup : Soup) : LotRow :=
  let lt := extract_lot_and_trade_numbers soup
  let prices := parse_info_wrapper soup "Цены"
  let dates := parse_info_wrapper soup "Даты торгов"
  let startPrice := pyGet prices "Начальная" "Не найдено"
  let step := pyGet prices "Шаг повышения" "Не найдено"
  let zadatok0 := pyGet prices "Задаток" "Отсутствует"
  let zadatok := if zadatok0 = "" then "Отсутствует" else zadatok0
  let acceptFrom := pyGet dates "Приём заявок с" "Не найдено"
  let acceptTo := pyGet dates "Приём заявок до" "Не найдено"
  let da := extract_description_and_address soup
  let dic := extract_debtor_inn_contact soup
  let debtorInfo0 := dic.1 ++ "; ИНН: " ++ dic.2.1
  let debtorInfo :=
    if dic.2.2 ≠ "" ∧ dic.2.2 ≠ "Не найдено" then
      debtorInfo0 ++ "; Контакт: " ++ dic.2.2
    else debtorInfo0
  { auctionLot := lt.2 ++ " / " ++ lt.1
    address := da.2
    startPrice := startPrice
    step := step
    deposit := zadatok
    tradePeriod := acceptFrom ++ " — " ++ acceptTo
    documentsCell := ""
    status := extract_status soup
    debtorInfo := debtorInfo
    description := da.1
    docs := extract_documents soup }

/-- Model of `BankrotParser.parse_lot_page`.  `fetch` abstracts the
browser: `none` is the exception path (navigation/timeout error), `some
soup` the parsed page source.  A page whose starting price and address are
both the not-found sentinel is discarded. -/
def parse_lot_page (fetch : String → Option Soup) (url : String) :
    String × Option LotRow :=
  match fetch url with
  | none => (url, none)
  | some soup =>
    let row := buildLotRow soup
    if row.startPrice = "Не найдено" ∧ row.address = "Не найдено" then (url, none)
    else (url, some row)

/-! ### Parallel helpers and the driver -/

/-- Model of `worker_parse`: process urls sequentially, keeping the record
and the url exactly when `parse_lot_page` returned a record. -/
def worker_parse (fetch : String → Option Soup) (urls : List String) :
    List LotRow × List String :=
  urls.foldl
    (fun acc url =>
      match (parse_lot_page fetch url).2 with
      | some row => (acc.1 ++ [row], acc.2 ++ [url])
      | none => acc)
    ([], [])

/-- Model of `chunk_list`: round-robin distribution of `items` over
`max 1 n_chunks` chunks, `items[i]` going to chunk `i % n`. -/
def chunk_list {α : Type} (items : List α) (n_chunks : Nat) : List (List α) :=
  let n := max 1 n_chunks
  items.enum.foldl
    (fun chunks p => chunks.set (p.1 % n) (chunks.getD (p.1 % n) [] ++ [p.2]))
    (List.replicate n ([] : List α))

/-- Worker count of the entry point (`WORKERS = 3`). -/
def WORKERS : Nat := 3

/-- Model of steps 3–5 of `__main__` as they affect the seen set: shard the
new links, run `worker_parse` on every non-empty shard, join the
successfully parsed urls, and `add_many` them into the store.  The
`as_completed` join order is immaterial for the resulting set and is
modelled as shard order. -/
def runSeenUpdate (seenBefore : Finset String) (newLinks : List String)
    (fetch : String → Option Soup) : Finset String :=
  let chunks := chunk_list newLinks WORKERS
  let parsedUrls :=
    ((chunks.filter (fun ch => ch ≠ [])).map (fun ch => (worker_parse fetch ch).2)).flatten
  add_many seenBefore parsedUrls

/-! ### Listing walker -/

/-- One anchor of a listing page processed by `get_listing_urls`: strip the
href, skip empty or fragment-only hrefs, absolutize, cut the fragment
(`split("#")[0]`), and insert into the accumulated set (modelled as a
duplicate-free list in insertion order). -/
def addLotLink (baseUrl : String) (acc : List String) (href0 : String) : List String :=
  let href := pyStrip href0
  if href = "" ∨ pyStartsWith href "#" then acc
  else
    let full := if pyStartsWith href "http" then href else baseUrl ++ href
    let normalized := pyTakeUntilHash full
    if normalized ∈ acc then acc else acc ++ [normalized]

/-- The inner anchor loop of `get_listing_urls`, with its early break once
`max_lots` identifiers are accumulated. -/
def addLinks (baseUrl : String) (maxLots : Nat) (acc : List String) :
    List String → List String
  | [] => acc
  | a :: rest =>
    if maxLots ≤ acc.length then acc
    else addLinks baseUrl maxLots (addLotLink baseUrl acc a) rest

theorem addLotLink_length_le (baseUrl : String) (acc : List String) (a : String) :
    acc.length ≤ (addLotLink baseUrl acc a).length := by
  unfold addLotLink
  dsimp only
  repeat' split
  all_goals simp

theorem addLinks_length_le (baseUrl : String) (maxLots : Nat) (acc : List String)
    (links : List String) : acc.length ≤ (addLinks baseUrl maxLots acc links).length := by
  induction links generalizing acc with
  | nil => simp [addLinks]
  | cons a rest ih =>
    rw [addLinks]
    split
    · exact Nat.le_refl _
    · exact Nat.le_trans (addLotLink_length_le baseUrl acc a) (ih _)

/-- The page loop of `get_listing_urls`.  `fetch` abstracts one listing page
request: `none` models the presence-wait timing out, `some hrefs` the href
attributes of the `a[href*='/lot/']` anchors found.  The returned `Nat` is
the value of `current_page` when the loop stops (the last page that was
processed, or attempted when `fetch` timed out). -/
def listingLoop (fetch : Nat → Option (List String)) (baseUrl : String)
    (maxLots : Nat) (page : Nat) (acc : List String) : List String × Nat :=
  if _h : acc.length < maxLots then
    match fetch page with
    | none => (acc, page)
    | some links =>
      if links.isEmpty then (acc, page)
      else
        if (addLinks baseUrl maxLots acc links).length = acc.length then
          (addLinks baseUrl maxLots acc links, page)
        else listingLoop fetch baseUrl maxLots (page + 1) (addLinks baseUrl maxLots acc links)
  else (acc, page)
termination_by maxLots - acc.length
decreasing_by
  have := addLinks_length_le baseUrl maxLots acc links
  omega

/-- Model of `BankrotParser.get_listing_urls`: start at page 1 with an empty
set.  The first component is the returned identifier list, the second the
final page counter. -/
def get_listing_urls (fetch : Nat → Option (List String)) (baseUrl : String)
    (maxLots : Nat) : List String × Nat :=
  listingLoop fetch baseUrl maxLots 1 []

/-! ### Excel export model -/

/-- Output columns, in the strict source order. -/
def OUTPUT_COLUMNS : List String :=
  ["Номер аукциона / лота",
   "Адрес объекта",
   "Начальная цена",
   "Шаг аукциона",
   "Размер задатка",
   "Дата и время начала / окончания торгов",
   "Документы",
   "Статус аукциона",
   "Информация о должнике",
   "Описание объекта"]

/-- One input record of `append_rows_with_documents`: the field dictionary
and the popped `__docs` list. -/
structure RecIn where
  fields : List (String × String)
  docs : List (String × String)

/-- One data row of the `Documents` sheet: the column-A key and the (name,
link) document cells written from column B on. -/
structure DocsRow where
  key : String
  cells : List (String × String)
deriving DecidableEq, Repr

/-- One data row of the `ALL` sheet: the cell values keyed by column header
and the Documents-sheet row number the documents cell links to (if any). -/
structure MainRow where
  values : List (String × String)
  docsLink : Option Nat
deriving DecidableEq, Repr

/-- The workbook state relevant to the export: the data rows of the `ALL`
and `Documents` sheets (headers as created by `ensure_workbook`). -/
structure XWorkbook where
  mainRows : List MainRow
  docsRows : List DocsRow
deriving DecidableEq, Repr

/-- Model of `read_existing_lot_keys`: the stripped keys of the truthy
column-A cells of the `Documents` sheet. -/
def read_existing_lot_keys (docsRows : List DocsRow) : Finset String :=
  ((docsRows.filter (fun r => r.key ≠ "")).map (fun r => pyStrip r.key)).toFinset

/-- Model of `append_documents_row_wide`: append one row holding the key and
the documents with truthy name and url, and return the 1-based sheet row
number it was written to (the header is row 1, so data row `i` is sheet row
`i + 2`). -/
def append_documents_row_wide (docsRows : List DocsRow) (lotKey : String)
    (docs : List (String × String)) : List DocsRow × Nat :=
  (docsRows ++ [⟨lotKey, docs.filter (fun d => d.1 ≠ "" ∧ d.2 ≠ "")⟩],
   docsRows.length + 2)

/-- The linear scan for the `Documents` row of a key (`for r in range(2,
max_row + 1)` with `v and str(v).strip() == lot_key`), returning 0 when no
row matches. -/
def findDocRowGo (lotKey : String) : List DocsRow → Nat → Nat
  | [], _ => 0
  | r :: rest, idx =>
    if r.key ≠ "" ∧ pyStrip r.key = lotKey then idx else findDocRowGo lotKey rest (idx + 1)

/-- Model of the duplicate-row scan of `append_rows_with_documents`. -/
def findDocRow (docsRows : List DocsRow) (lotKey : String) : Nat :=
  findDocRowGo lotKey docsRows 2

/-- Overwrite the value of one header in a cell assignment (the documents
cell of a `ALL` row is written after the field cells). -/
def setAssoc (d : List (String × String)) (k v : String) : List (String × String) :=
  d.map (fun p => if p.1 = k then (k, v) else p)

/-- The field cells of one `ALL` row: every output column from the record
dictionary (missing keys default to `""`), with the documents cell value
overwritten after the loop. -/
def mainCellsOf (rec : RecIn) (docsMarker : String) : List (String × String) :=
  setAssoc (OUTPUT_COLUMNS.map (fun c => (c, pyGet rec.fields c "")))
    "Документы" docsMarker

/-- The `lot_key` of a record: the trimmed key-column value. -/
def lotKeyOf (rec : RecIn) : String :=
  pyStrip (pyGet rec.fields "Номер аукциона / лота" "")

/-- The `docs_count` of a record: its documents with a truthy url. -/
def docsCountOf (rec : RecIn) : Nat :=
  (rec.docs.filter (fun d => d.2 ≠ "")).length

/-- One iteration of the record loop of `append_rows_with_documents`,
threading the workbook and the in-memory `existing_lot_keys_docs` set. -/
def exportStep (st : XWorkbook × Finset String) (rec : RecIn) :
    XWorkbook × Finset String :=
  if lotKeyOf rec = "" ∨ docsCountOf rec = 0 then
    ({ st.1 with
        mainRows := st.1.mainRows ++ [⟨mainCellsOf rec "Документы (0)", none⟩] },
     st.2)
  else if lotKeyOf rec ∈ st.2 then
    ({ st.1 with
        mainRows := st.1.mainRows ++
          [⟨mainCellsOf rec ("Документы (" ++ toString (docsCountOf rec) ++ ")"),
            some (findDocRow st.1.docsRows (lotKeyOf rec))⟩] },
     st.2)
  else
    ({ mainRows := st.1.mainRows ++
        [⟨mainCellsOf rec ("Документы (" ++ toString (docsCountOf rec) ++ ")"),
          some (append_documents_row_wide st.1.docsRows (lotKeyOf rec) rec.docs).2⟩],
       docsRows := (append_documents_row_wide st.1.docsRows (lotKeyOf rec) rec.docs).1 },
     insert (lotKeyOf rec) st.2)

/-- Model of `append_rows_with_documents` on a workbook whose sheets carry
the headers created by `ensure_workbook`: an empty batch leaves the workbook
untouched; otherwise the records are processed in order against the
existing-keys set read once upfront. -/
def append_rows_with_documents (rows : List RecIn) (wb : XWorkbook) : XWorkbook :=
  if rows.isEmpty then wb
  else (rows.foldl exportStep (wb, read_existing_lot_keys wb.docsRows)).1

/-- The record dictionary of `parse_lot_page` as passed to the export (the
field columns; `__docs` is popped into the separate component). -/
def rowFields (r : LotRow) : List (String × String) :=
  [("Номер аукциона / лота", r.auctionLot),
   ("Адрес объекта", r.address),
   ("Начальная цена", r.startPrice),
   ("Шаг аукциона", r.step),
   ("Размер задатка", r.deposit),
   ("Дата и время начала / окончания торгов", r.tradePeriod),
   ("Документы", r.documentsCell),
   ("Статус аукциона", r.status),
   ("Информация о должнике", r.debtorInfo),
   ("Описание объекта", r.description)]

/-- A parsed record as an export input (`docs = row.pop("__docs", [])`). -/
def rowToRecIn (r : LotRow) : RecIn :=
  ⟨rowFields r, r.docs⟩

/-! ### chunk_list lemmas -/

theorem list_toFinset_map {α β : Type} [DecidableEq α] [DecidableEq β]
    (l : List α) (f : α → β) : (l.map f).toFinset = l.toFinset.image f := by
  induction l with
  | nil => simp
  | cons a t ih => simp [ih]

theorem getD_map_range {α : Type} (g : Nat → List α) (n i : Nat) (hi : i < n) :
    ((List.range n).map g).getD i [] = g i := by
  rw [List.getD_eq_getElem _ _ (by simpa using hi)]
  simp

theorem map_range_set {α : Type} (g : Nat → List α) (n i : Nat) (v : List α) :
    ((List.range n).map g).set i v =
      (List.range n).map (fun j => if j = i then v else g j) := by
  apply List.ext_getElem
  · simp
  · intro m h1 h2
    simp only [List.getElem_set, List.getElem_map, List.getElem_range]
    by_cases hm : i = m
    · subst hm
      simp
    · rw [if_neg hm, if_neg (fun hh => hm hh.symm)]

/-- Closed form of `chunk_list`: chunk `i` is the sub-sequence of elements
whose index is congruent to `i` modulo the clamped chunk count. -/
theorem chunk_list_eq {α : Type} (items : List α) (n : Nat) :
    chunk_list items n =
      (List.range (max 1 n)).map
        (fun i => (items.enum.filter (fun p => p.1 % max 1 n = i)).map Prod.snd) := by
  induction items using List.reverseRecOn with
  | nil =>
    apply List.ext_getElem
    · simp [chunk_list]
    · intro m h1 h2
      simp [chunk_list] at h1 ⊢
  | append_singleton xs x ih =>
    have hmod : xs.length % max 1 n < max 1 n :=
      Nat.mod_lt _ (Nat.lt_of_lt_of_le Nat.zero_lt_one (Nat.le_max_left 1 n))
    have hstep : chunk_list (xs ++ [x]) n =
        (chunk_list xs n).set (xs.length % max 1 n)
          ((chunk_list xs n).getD (xs.length % max 1 n) [] ++ [x]) := by
      show (xs ++ [x]).enum.foldl _ _ = _
      rw [List.enum_append]
      simp only [List.enumFrom, List.foldl_append, List.foldl_cons, List.foldl_nil]
      rfl
    rw [hstep, ih, getD_map_range _ _ _ hmod, map_range_set]
    apply List.map_congr_left
    intro i hi
    rw [List.mem_range] at hi
    rw [List.enum_append]
    simp only [List.enumFrom, List.filter_append, List.map_append]
    by_cases hix : i = xs.length % max 1 n
    · subst hix
      simp [List.filter]
    · rw [if_neg hix]
      have : ¬(xs.length % max 1 n = i) := fun hh => hix hh.symm
      simp [List.filter, this]

theorem chunk_list_length {α : Type} (items : List α) (n : Nat) :
    (chunk_list items n).length = max 1 n := by
  rw [chunk_list_eq]
  simp

theorem chunk_list_getD {α : Type} (items : List α) (n i : Nat) (hi : i < max 1 n) :
    (chunk_list items n).getD i [] =
      (items.enum.filter (fun p => p.1 % max 1 n = i)).map Prod.snd := by
  rw [chunk_list_eq, getD_map_range _ _ _ hi]

theorem flatten_set_getD_append {α : Type} (L : List (List α)) (i : Nat)
    (hi : i < L.length) (x : α) :
    (L.set i (L.getD i [] ++ [x])).flatten.Perm (L.flatten ++ [x]) := by
  induction L generalizing i with
  | nil => simp at hi
  | cons c rest ih =>
    cases i with
    | zero =>
      simp only [List.set, List.getD_cons_zero, List.flatten_cons, List.append_assoc]
      exact (List.perm_append_left_iff c).mpr List.perm_append_comm
    | succ j =>
      simp only [List.set, List.getD_cons_succ, List.flatten_cons, List.append_assoc]
      exact (List.perm_append_left_iff c).mpr (ih j (by simpa using hi))

/-- The concatenation of the chunks is a permutation of the input. -/
theorem chunk_list_flatten_perm {α : Type} (items : List α) (n : Nat) :
    (chunk_list items n).flatten.Perm items := by
  induction items using List.reverseRecOn with
  | nil =>
    rw [chunk_list_eq]
    simp [List.flatten_eq_nil_iff]
  | append_singleton xs x ih =>
    have hmod : xs.length % max 1 n < max 1 n :=
      Nat.mod_lt _ (Nat.lt_of_lt_of_le Nat.zero_lt_one (Nat.le_max_left 1 n))
    have hstep : chunk_list (xs ++ [x]) n =
        (chunk_list xs n).set (xs.length % max 1 n)
          ((chunk_list xs n).getD (xs.length % max 1 n) [] ++ [x]) := by
      show (xs ++ [x]).enum.foldl _ _ = _
      rw [List.enum_append]
      simp only [List.enumFrom, List.foldl_append, List.foldl_cons, List.foldl_nil]
      rfl
    rw [hstep]
    have h1 := flatten_set_getD_append (chunk_list xs n) (xs.length % max 1 n)
      (by rw [chunk_list_length]; exact hmod) x
    exact h1.trans (ih.append_right [x])

theorem enum_filter_fst_length {α : Type} (items : List α) (p : Nat → Bool) :
    (items.enum.filter (fun q => p q.1)).length =
      ((List.range items.length).filter p).length := by
  induction items using List.reverseRecOn with
  | nil => simp
  | append_singleton xs x ih =>
    rw [List.enum_append]
    simp only [List.enumFrom, List.length_append, List.length_singleton, List.range_succ,
      List.filter_append]
    by_cases h : p xs.length <;> simp [List.filter, h, ih]

theorem range_filter_mod_length (L n i : Nat) (hn : 0 < n) (hi : i < n) :
    ((List.range L).filter (fun k => k % n = i)).length =
      L / n + if i < L % n then 1 else 0 := by
  have hcongr : (List.range L).filter (fun k => decide (k % n = i)) =
      (List.range L).filter (fun k => decide (k ≡ i [MOD n])) := by
    apply List.filter_congr
    intro k _
    simp [Nat.ModEq, Nat.mod_eq_of_lt hi]
  have hcount := Nat.count_modEq_card L hn i
  rw [Nat.mod_eq_of_lt hi] at hcount
  rw [hcongr, ← List.countP_eq_length_filter]
  exact hcount

theorem shard_length_closed {α : Type} (items : List α) (n i : Nat) (hi : i < max 1 n) :
    ((chunk_list items n).getD i []).length =
      items.length / max 1 n + if i < items.length % max 1 n then 1 else 0 := by
  rw [chunk_list_getD _ _ _ hi, List.length_map]
  have h1 : (items.enum.filter (fun p => decide (p.1 % max 1 n = i))).length =
      ((List.range items.length).filter (fun k => decide (k % max 1 n = i))).length :=
    enum_filter_fst_length items (fun k => decide (k % max 1 n = i))
  rw [h1]
  exact range_filter_mod_length items.length (max 1 n) i (by omega) hi

theorem chunk_list_mem_shard {α : Type} (items : List α) (n k : Nat) (a : α)
    (h : items[k]? = some a) :
    a ∈ (chunk_list items n).getD (k % max 1 n) [] := by
  rw [chunk_list_getD _ _ _ (Nat.mod_lt _ (by omega))]
  simp only [List.mem_map, List.mem_filter]
  refine ⟨(k, a), ⟨?_, by simp⟩, rfl⟩
  rw [List.mk_mem_enum_iff_getElem?]
  exact h

/-- C2: `chunk_list` returns exactly `n` shards for `n ≥ 1`, places
`items[i]` into shard `i % n`, concatenates back to a permutation of the
input (each element exactly once), keeps any two shard sizes within 1 of
each other, and clamps `n` to at least 1; determinism is immediate since
`chunk_list` is a pure function of `items` and `n`. -/
theorem chunk_list_spec {α : Type} [DecidableEq α] (items : List α) (n : Nat)
    (hn : 1 ≤ n) :
    (chunk_list items n).length = n ∧
    (∀ (k : Nat) (a : α), items[k]? = some a →
        a ∈ (chunk_list items n).getD (k % n) []) ∧
    (chunk_list items n).flatten.Perm items ∧
    (∀ a : α, (chunk_list items n).flatten.count a = items.count a) ∧
    (∀ i j : Nat, i < n → j < n →
        ((chunk_list items n).getD i []).length ≤
          ((chunk_list items n).getD j []).length + 1) ∧
    chunk_list items 0 = chunk_list items 1 := by
  have hmax : max 1 n = n := Nat.max_eq_right hn
  refine ⟨?_, ?_, ?_, ?_, ?_, ?_⟩
  · rw [chunk_list_length, hmax]
  · intro k a h
    have := chunk_list_mem_shard items n k a h
    rwa [hmax] at this
  · exact chunk_list_flatten_perm items n
  · intro a
    exact (chunk_list_flatten_perm items n).count_eq a
  · intro i j hi hj
    rw [shard_length_closed items n i (by omega), shard_length_closed items n j (by omega)]
    have hmlt : items.length % max 1 n < max 1 n := Nat.mod_lt _ (by omega)
    split <;> split <;> omega
  · rfl

/-! ### Driver lemmas (worker_parse, add_many, runSeenUpdate) -/

theorem worker_parse_go (fetch : String → Option Soup) (urls : List String)
    (acc : List LotRow × List String) :
    (urls.foldl
      (fun acc url =>
        match (parse_lot_page fetch url).2 with
        | some row => (acc.1 ++ [row], acc.2 ++ [url])
        | none => acc)
      acc).2 =
      acc.2 ++ urls.filter (fun u => ((parse_lot_page fetch u).2).isSome) := by
  induction urls generalizing acc with
  | nil => simp
  | cons u t ih =>
    simp only [List.foldl_cons, List.filter_cons]
    cases h : (parse_lot_page fetch u).2 with
    | some row => simp [h, ih]
    | none => simp [h, ih]

/-- The urls reported by a worker are exactly those of its shard whose parse
returned a record, in shard order. -/
theorem worker_parse_snd (fetch : String → Option Soup) (urls : List String) :
    (worker_parse fetch urls).2 =
      urls.filter (fun u => ((parse_lot_page fetch u).2).isSome) := by
  unfold worker_parse
  rw [worker_parse_go]
  simp

theorem flatten_map_filter_ne_nil {α β : Type} [DecidableEq α] (L : List (List α))
    (f : List α → List β) (hf : f [] = []) :
    ((L.filter (fun ch => ch ≠ [])).map f).flatten = (L.map f).flatten := by
  induction L with
  | nil => rfl
  | cons c rest ih =>
    simp only [ne_eq, decide_not] at ih ⊢
    by_cases hc : c = []
    · subst hc
      simp [hf, ih]
    · simp [hc, ih]

theorem flatten_map_filter {α : Type} (L : List (List α)) (p : α → Bool) :
    (L.map (fun l => l.filter p)).flatten = L.flatten.filter p := by
  induction L with
  | nil => rfl
  | cons c rest ih =>
    simp only [List.map_cons, List.flatten_cons, List.filter_append, ih]

theorem mem_add_many (seen : Finset String) (l : List String) (x : String) :
    x ∈ add_many seen l ↔ x ∈ seen ∨ (x ∈ l ∧ x ≠ "") := by
  induction l generalizing seen with
  | nil => rw [add_many]; simp
  | cons u t ih =>
    rw [add_many, ih]
    by_cases hu : u = ""
    · rw [if_neg (by simp [hu])]
      simp only [List.mem_cons, hu]
      constructor
      · rintro (h | h)
        · exact Or.inl h
        · exact Or.inr ⟨Or.inr h.1, h.2⟩
      · rintro (h | ⟨h1 | h1, h2⟩)
        · exact Or.inl h
        · exact absurd h1 h2
        · exact Or.inr ⟨h1, h2⟩
    · rw [if_pos hu]
      simp only [List.mem_cons, Finset.mem_insert]
      constructor
      · rintro (⟨h1 | h1⟩ | h)
        · exact Or.inr ⟨Or.inl h1, h1 ▸ hu⟩
        · exact Or.inl h1
        · exact Or.inr ⟨Or.inr h.1, h.2⟩
      · rintro (h | ⟨h1 | h1, h2⟩)
        · exact Or.inl (Or.inr h)
        · exact Or.inl (Or.inl h1)
        · exact Or.inr ⟨h1, h2⟩

theorem add_many_eq (seen : Finset String) (l : List String) :
    add_many seen l = seen ∪ (l.filter (fun u => u ≠ "")).toFinset := by
  apply Finset.ext
  intro x
  simp [mem_add_many, List.mem_filter]

/-- C4: after the driver joins the shard results and `add_many`s them into
the store, the seen set equals the prior seen set united with exactly those
identifiers whose parse returned a record; identifiers whose parse raised or
whose record was discarded by the empty gate are not marked seen. -/
theorem run_seen_update (seen : Finset String) (newLinks : List String)
    (fetch : String → Option Soup) (hne : ∀ u ∈ newLinks, u ≠ "") :
    runSeenUpdate seen newLinks fetch =
      seen ∪ (newLinks.filter (fun u => ((parse_lot_page fetch u).2).isSome)).toFinset ∧
    (∀ u ∈ newLinks, (parse_lot_page fetch u).2 = none → u ∉ seen →
      u ∉ runSeenUpdate seen newLinks fetch) := by
  have hmain : runSeenUpdate seen newLinks fetch =
      seen ∪ (newLinks.filter (fun u => ((parse_lot_page fetch u).2).isSome)).toFinset := by
    unfold runSeenUpdate
    rw [add_many_eq]
    rw [flatten_map_filter_ne_nil (chunk_list newLinks WORKERS)
      (fun ch => (worker_parse fetch ch).2) rfl]
    have hmapeq : (chunk_list newLinks WORKERS).map (fun ch => (worker_parse fetch ch).2) =
        (chunk_list newLinks WORKERS).map
          (fun ch => ch.filter (fun u => ((parse_lot_page fetch u).2).isSome)) :=
      List.map_congr_left (fun ch _ => worker_parse_snd fetch ch)
    rw [hmapeq, flatten_map_filter]
    have hperm : ((chunk_list newLinks WORKERS).flatten.filter
        (fun u => ((parse_lot_page fetch u).2).isSome)).Perm
        (newLinks.filter (fun u => ((parse_lot_page fetch u).2).isSome)) :=
      (chunk_list_flatten_perm newLinks WORKERS).filter _
    congr 1
    apply Finset.ext
    intro x
    constructor
    · intro hx
      have hx1 := (List.mem_filter.mp (List.mem_toFinset.mp hx)).1
      exact List.mem_toFinset.mpr (hperm.mem_iff.mp hx1)
    · intro hx
      apply List.mem_toFinset.mpr
      apply List.mem_filter.mpr
      refine ⟨hperm.mem_iff.mpr (List.mem_toFinset.mp hx), ?_⟩
      have hmem : x ∈ newLinks := (List.mem_filter.mp (List.mem_toFinset.mp hx)).1
      simpa using hne x hmem
  refine ⟨hmain, ?_⟩
  intro u hu hnone hseen
  rw [hmain]
  simp only [Finset.mem_union, List.mem_toFinset, List.mem_filter]
  rintro (h | ⟨_, hsome⟩)
  · exact hseen h
  · rw [hnone] at hsome
    simp at hsome

/-! ### Fixtures -/

/-- A detail page with none of the queried elements present. -/
def emptySoup : Soup :=
  { helpSpan := none, statusSpan := none, wrappers := [], details := [],
    content := none, docAnchors := [] }

/-- A detail page carrying only a help-text span. -/
def helpSoup (t : String) : Soup :=
  { emptySoup with helpSpan := some t }

/-- A detail page with a price wrapper holding a starting price and a
deposit. -/
def priceSoup : Soup :=
  { emptySoup with
      wrappers := [⟨some "Цены", [⟨some "Начальная", some "100"⟩, ⟨some "Задаток", some "50"⟩]⟩] }

/-! ### C1 -/

/-- C1: for a fetchable detail page, `parse_lot_page` returns no record
exactly when both the extracted starting price and the extracted address
are the not-found sentinel; when at least one of the two is found, the
record is returned. -/
theorem parse_lot_page_empty_gate (fetch : String → Option Soup) (url : String)
    (soup : Soup) (hf : fetch url = some soup) :
    (parse_lot_page fetch url).2 = none ↔
      (pyGet (parse_info_wrapper soup "Цены") "Начальная" "Не найдено" = "Не найдено" ∧
       (extract_description_and_address soup).2 = "Не найдено") := by
  unfold parse_lot_page
  rw [hf]
  show (if (buildLotRow soup).startPrice = "Не найдено" ∧
        (buildLotRow soup).address = "Не найдено"
      then (url, (none : Option LotRow))
      else (url, some (buildLotRow soup))).2 = none ↔ _
  by_cases hgate : (buildLotRow soup).startPrice = "Не найдено" ∧
      (buildLotRow soup).address = "Не найдено"
  · rw [if_pos hgate]
    exact iff_of_true rfl hgate
  · rw [if_neg hgate]
    exact iff_of_false (by simp) hgate

/-- Witness for C1 at a concrete page with neither field found. -/
theorem parse_lot_page_empty_gate_witness :
    (parse_lot_page (fun _ => some emptySoup) "u").2 = none ↔
      (pyGet (parse_info_wrapper emptySoup "Цены") "Начальная" "Не найдено" = "Не найдено" ∧
       (extract_description_and_address emptySoup).2 = "Не найдено") :=
  parse_lot_page_empty_gate (fun _ => some emptySoup) "u" emptySoup rfl

/-! ### C7 -/

/-- C7: lot and trade numbers come from two independent regex captures over
the help span, each independently defaulting to the not-found sentinel; for
the span `"Лот № 14, торги № 982"` extraction yields lot `"14"` and trade
`"982"`, and the record key renders as `"982 / 14"`. -/
theorem lot_trade_extraction :
    extract_lot_and_trade_numbers (helpSoup "Лот № 14, торги № 982") = ("14", "982") ∧
    (buildLotRow (helpSoup "Лот № 14, торги № 982")).auctionLot = "982 / 14" ∧
    extract_lot_and_trade_numbers (helpSoup "Лот № 14") = ("14", "Не найдено") ∧
    extract_lot_and_trade_numbers (helpSoup "торги № 982") = ("Не найдено", "982") ∧
    extract_lot_and_trade_numbers emptySoup = ("Не найдено", "Не найдено") := by
  refine ⟨?_, ?_, ?_, ?_, ?_⟩ <;> decide

/-! ### C8 -/

/-- C8 counterexample: on a page with no price wrapper at all, the deposit
field still gets the absent sentinel, so "absent exactly when the structured
price block exists but its deposit value is empty" fails as stated. -/
theorem deposit_sentinel_counterexample :
    (buildLotRow emptySoup).deposit = "Отсутствует" ∧
    selectInfoWrapper emptySoup "Цены" = none := by
  exact ⟨rfl, rfl⟩

/-- C8 amended: the deposit field is the absent sentinel exactly when the
price dictionary has no `Задаток` entry (including when the price wrapper
itself is missing), the entry is empty, or the entry is itself the absent
sentinel; a non-empty value passes through extraction unchanged, the absent
sentinel is distinct from the not-found sentinel and the extractor never
introduces the not-found sentinel for the deposit, and the export writes
the deposit column value unchanged. -/
theorem deposit_sentinel_amended :
    (∀ soup : Soup,
      ((buildLotRow soup).deposit = "Отсутствует" ↔
        (lookupLast (parse_info_wrapper soup "Цены") "Задаток" = none ∨
         lookupLast (parse_info_wrapper soup "Цены") "Задаток" = some "" ∨
         lookupLast (parse_info_wrapper soup "Цены") "Задаток" = some "Отсутствует"))) ∧
    (∀ (soup : Soup) (v : String),
      lookupLast (parse_info_wrapper soup "Цены") "Задаток" = some v → v ≠ "" →
      (buildLotRow soup).deposit = v) ∧
    ("Отсутствует" : String) ≠ "Не найдено" ∧
    (∀ soup : Soup, (buildLotRow soup).deposit = "Не найдено" →
      lookupLast (parse_info_wrapper soup "Цены") "Задаток" = some "Не найдено") ∧
    (∀ r : LotRow, pyGet (rowFields r) "Размер задатка" "" = r.deposit) ∧
    (∀ (rec : RecIn) (m : String),
      lookupLast (setAssoc (OUTPUT_COLUMNS.map (fun c => (c, pyGet rec.fields c "")))
          "Документы" m) "Размер задатка" = some (pyGet rec.fields "Размер задатка" "")) := by
  have hdep : ∀ soup : Soup, (buildLotRow soup).deposit =
      (if pyGet (parse_info_wrapper soup "Цены") "Задаток" "Отсутствует" = "" then
        "Отсутствует"
      else pyGet (parse_info_wrapper soup "Цены") "Задаток" "Отсутствует") :=
    fun _ => rfl
  refine ⟨?_, ?_, by decide, ?_, fun r => rfl, fun rec m => rfl⟩
  · intro soup
    rw [hdep]
    cases h : lookupLast (parse_info_wrapper soup "Цены") "Задаток" with
    | none => simp [pyGet, h]
    | some v =>
      simp only [pyGet, h, Option.getD_some]
      by_cases hv : v = ""
      · simp [hv]
      · rw [if_neg hv]
        constructor
        · intro hEq
          exact Or.inr (Or.inr (by rw [hEq]))
        · intro hc
          rcases hc with hc | hc | hc
          · exact absurd hc (by simp)
          · rw [Option.some_inj] at hc
            exact absurd hc hv
          · rw [Option.some_inj] at hc
            exact hc
  · intro soup v h hv
    rw [hdep]
    simp [pyGet, h, hv]
  · intro soup h
    rw [hdep] at h
    cases hl : lookupLast (parse_info_wrapper soup "Цены") "Задаток" with
    | none => simp [pyGet, hl] at h
    | some v =>
      simp only [pyGet, hl, Option.getD_some] at h
      by_cases hv : v = ""
      · rw [if_pos hv] at h
        exact absurd h (by decide)
      · rw [if_neg hv] at h
        subst h
        rfl

/-- Witness for C8's amended theorem: a concrete non-empty deposit value
passes through unchanged. -/
theorem deposit_sentinel_amended_witness :
    (buildLotRow priceSoup).deposit = "50" :=
  deposit_sentinel_amended.2.1 priceSoup "50" (by decide) (by decide)

/-! ### C9 -/

/-- C9 counterexample: with the cookie file absent, the entry point aborts
with `SystemExit(1)` before any network activity, contradicting "the run
does not crash and processing proceeds". -/
theorem cookies_absent_counterexample :
    mainCookieGuard false = Except.error 1 ∧
    (Except.error 1 : Except Nat Unit) ≠ Except.ok () := by
  refine ⟨rfl, ?_⟩
  intro h
  cases h

/-- C9 amended: `load_auth_cookies` yields `[]` without raising for an
absent, unreadable, or invalid cookie file, and a JSON array is passed
through, so a present-but-bad file merely disables authenticated fetching;
but the entry point treats a missing `auth_cookies.json` as a fatal
precondition and exits with status 1 before any network activity. -/
theorem cookies_amended :
    load_auth_cookies .missing = [] ∧
    load_auth_cookies .unreadable = [] ∧
    load_auth_cookies .invalid = [] ∧
    (∀ l : List JVal, load_auth_cookies (.json (.jarr l)) = l) ∧
    mainCookieGuard false = Except.error 1 ∧
    mainCookieGuard true = Except.ok () :=
  ⟨rfl, rfl, rfl, fun _ => rfl, rfl, rfl⟩

/-! ### C3 -/

/-- C3 counterexample: a JSON array containing a nested array is valid JSON,
but `set(data)` raises `TypeError` on the unhashable element; the exception
handler then yields the empty set, not "the set of the array's elements". -/
theorem seen_load_array_counterexample :
    pySetOf [JVal.jarr []] = none ∧
    seenLoad (.json (.jarr [JVal.jarr []])) = ∅ ∧
    [JVal.jarr []] ≠ [] := by
  refine ⟨rfl, rfl, ?_⟩
  intro h
  cases h

/-- C3 amended: `load` yields the empty set for a missing, unreadable, or
invalid file; a JSON array of hashable (scalar) elements yields the set of
its elements, as does the `"seen"` list of a legacy object, while an array
with an unhashable element degrades to the empty set via the exception
handler; the concrete legacy scenario yields exactly its one identifier. -/
theorem seen_load_amended :
    seenLoad .missing = ∅ ∧ seenLoad .unreadable = ∅ ∧ seenLoad .invalid = ∅ ∧
    (∀ (l : List JVal) (s : Finset JScalar), pySetOf l = some s →
      seenLoad (.json (.jarr l)) = s) ∧
    (∀ l : List JVal, pySetOf l = none → seenLoad (.json (.jarr l)) = ∅) ∧
    (∀ (fields : List (String × JVal)) (l : List JVal) (s : Finset JScalar),
      lookupLast fields "seen" = some (.jarr l) → pySetOf l = some s →
      seenLoad (.json (.jobj fields)) = s) ∧
    seenLoad (.json (.jobj [("seen", JVal.jarr [JVal.jstr "https://x/lot/1"])])) =
      {JScalar.jstr "https://x/lot/1"} := by
  refine ⟨rfl, rfl, rfl, ?_, ?_, ?_, by decide⟩
  · intro l s h
    show (pySetOf l).getD ∅ = s
    rw [h]
    rfl
  · intro l h
    show (pySetOf l).getD ∅ = ∅
    rw [h]
    rfl
  · intro fields l s h1 h2
    show (match lookupLast fields "seen" with
      | some (.jarr l) => (pySetOf l).getD ∅
      | _ => (∅ : Finset JScalar)) = s
    rw [h1]
    show (pySetOf l).getD ∅ = s
    rw [h2]
    rfl

/-- Witness for C3's amended theorem at concrete inputs. -/
theorem seen_load_amended_witness :
    seenLoad (.json (.jarr [JVal.jstr "https://x/lot/1"])) =
      {JScalar.jstr "https://x/lot/1"} :=
  seen_load_amended.2.2.2.1 [JVal.jstr "https://x/lot/1"]
    {JScalar.jstr "https://x/lot/1"} (by decide)

/-! ### C10 -/

theorem mapM_toScalar_map_jstr (l : List String) :
    (l.map JVal.jstr).mapM JVal.toScalar = some (l.map JScalar.jstr) := by
  induction l with
  | nil => rfl
  | cons a t ih =>
    rw [List.map_cons, List.mapM_cons, ih]
    rfl

/-- C10: saving a seen set as a sorted JSON array and loading it back yields
exactly the same set of identifiers — no element is lost or added. -/
theorem seen_save_load_roundtrip (S : Finset String) :
    seenLoad (.json (seenSaveJson S)) = S.image JScalar.jstr ∧
    (∀ s : String, JScalar.jstr s ∈ seenLoad (.json (seenSaveJson S)) ↔ s ∈ S) := by
  have h1 : seenLoad (.json (seenSaveJson S)) = S.image JScalar.jstr := by
    show (pySetOf ((seenSavePayload S).map JVal.jstr)).getD ∅ = _
    have h2 : pySetOf ((seenSavePayload S).map JVal.jstr) =
        some (((seenSavePayload S).map JScalar.jstr).toFinset) := by
      unfold pySetOf
      rw [mapM_toScalar_map_jstr]
      rfl
    rw [h2]
    show ((seenSavePayload S).map JScalar.jstr).toFinset = _
    rw [list_toFinset_map]
    unfold seenSavePayload
    rw [Finset.sort_toFinset]
  refine ⟨h1, fun s => ?_⟩
  rw [h1, Finset.mem_image]
  constructor
  · rintro ⟨a, ha, heq⟩
    injection heq with heq
    exact heq ▸ ha
  · intro hs
    exact ⟨s, hs, rfl⟩

/-! ### C6 -/

/-- Listing page 1 of the walker scenario: 20 item links. -/
def scenarioPage1 : List String :=
  (List.range 20).map (fun i => "/lot/a" ++ toString i)

/-- Listing page 2 of the walker scenario: 20 item links, 5 of which repeat
page 1. -/
def scenarioPage2 : List String :=
  (List.range 20).map (fun i => "/lot/a" ++ toString (i + 15))

/-- The walker scenario catalog: page 3 repeats page 2 (zero new
identifiers). -/
def scenarioFetch : Nat → Option (List String) := fun page =>
  if page = 1 then some scenarioPage1
  else if page = 2 then some scenarioPage2
  else if page = 3 then some scenarioPage2
  else none

/-- C6: the page loop stops, in priority order, when the accumulated count
has reached the target (checked before fetching), when the page wait times
out, when the page holds no item anchors, or when a page adds zero new
identifiers; in the concrete 20/20-with-5-overlap/0-new scenario with
target 100 it stops after page 3 with exactly 35 distinct identifiers. -/
theorem get_listing_urls_stop :
    (∀ (fetch : Nat → Option (List String)) (b : String) (m page : Nat)
        (acc : List String), m ≤ acc.length →
      listingLoop fetch b m page acc = (acc, page)) ∧
    (∀ (fetch : Nat → Option (List String)) (b : String) (m page : Nat)
        (acc : List String), acc.length < m → fetch page = none →
      listingLoop fetch b m page acc = (acc, page)) ∧
    (∀ (fetch : Nat → Option (List String)) (b : String) (m page : Nat)
        (acc : List String), acc.length < m → fetch page = some [] →
      listingLoop fetch b m page acc = (acc, page)) ∧
    (∀ (fetch : Nat → Option (List String)) (b : String) (m page : Nat)
        (acc links : List String), acc.length < m → fetch page = some links →
      links ≠ [] → (addLinks b m acc links).length = acc.length →
      listingLoop fetch b m page acc = (addLinks b m acc links, page)) ∧
    (∀ (fetch : Nat → Option (List String)) (b : String) (m page : Nat)
        (acc links : List String), acc.length < m → fetch page = some links →
      links ≠ [] → (addLinks b m acc links).length ≠ acc.length →
      listingLoop fetch b m page acc =
        listingLoop fetch b m (page + 1) (addLinks b m acc links)) ∧
    ((get_listing_urls scenarioFetch "https://bankrotbaza.ru" 100).1.length = 35 ∧
     (get_listing_urls scenarioFetch "https://bankrotbaza.ru" 100).2 = 3) := by
  have harrive : ∀ (fetch : Nat → Option (List String)) (b : String) (m page : Nat)
      (acc links : List String), acc.length < m → fetch page = some links →
      links ≠ [] →
      listingLoop fetch b m page acc =
        (if (addLinks b m acc links).length = acc.length then
          (addLinks b m acc links, page)
        else listingLoop fetch b m (page + 1) (addLinks b m acc links)) := by
    intro fetch b m page acc links hlt hf hne
    rw [listingLoop.eq_def, dif_pos hlt, hf]
    dsimp only
    rw [if_neg (by simpa using hne)]
  refine ⟨?_, ?_, ?_, ?_, ?_, ?_⟩
  · intro fetch b m page acc hge
    rw [listingLoop.eq_def, dif_neg (by omega)]
  · intro fetch b m page acc hlt hf
    rw [listingLoop.eq_def, dif_pos hlt, hf]
  · intro fetch b m page acc hlt hf
    rw [listingLoop.eq_def, dif_pos hlt, hf]
    dsimp only
    rw [if_pos (by simp)]
  · intro fetch b m page acc links hlt hf hne hstop
    rw [harrive fetch b m page acc links hlt hf hne, if_pos hstop]
  · intro fetch b m page acc links hlt hf hne hcont
    rw [harrive fetch b m page acc links hlt hf hne, if_neg hcont]
  · have hs1 : listingLoop scenarioFetch "https://bankrotbaza.ru" 100 1 [] =
        listingLoop scenarioFetch "https://bankrotbaza.ru" 100 2
          (addLinks "https://bankrotbaza.ru" 100 [] scenarioPage1) := by
      rw [harrive scenarioFetch "https://bankrotbaza.ru" 100 1 [] scenarioPage1
        (by decide) rfl (by decide)]
      rw [if_neg (by decide)]
    have hs2 : listingLoop scenarioFetch "https://bankrotbaza.ru" 100 2
        (addLinks "https://bankrotbaza.ru" 100 [] scenarioPage1) =
        listingLoop scenarioFetch "https://bankrotbaza.ru" 100 3
          (addLinks "https://bankrotbaza.ru" 100
            (addLinks "https://bankrotbaza.ru" 100 [] scenarioPage1) scenarioPage2) := by
      rw [harrive scenarioFetch "https://bankrotbaza.ru" 100 2 _ scenarioPage2
        (by decide) rfl (by decide)]
      rw [if_neg (by decide)]
    have hs3 : listingLoop scenarioFetch "https://bankrotbaza.ru" 100 3
        (addLinks "https://bankrotbaza.ru" 100
          (addLinks "https://bankrotbaza.ru" 100 [] scenarioPage1) scenarioPage2) =
        (addLinks "https://bankrotbaza.ru" 100
          (addLinks "https://bankrotbaza.ru" 100
            (addLinks "https://bankrotbaza.ru" 100 [] scenarioPage1) scenarioPage2)
          scenarioPage2, 3) := by
      rw [harrive scenarioFetch "https://bankrotbaza.ru" 100 3 _ scenarioPage2
        (by decide) rfl (by decide)]
      rw [if_pos (by decide)]
    have hfinal : get_listing_urls scenarioFetch "https://bankrotbaza.ru" 100 =
        (addLinks "https://bankrotbaza.ru" 100
          (addLinks "https://bankrotbaza.ru" 100
            (addLinks "https://bankrotbaza.ru" 100 [] scenarioPage1) scenarioPage2)
          scenarioPage2, 3) := by
      unfold get_listing_urls
      rw [hs1, hs2, hs3]
    rw [hfinal]
    exact ⟨by decide, rfl⟩

/-- Witness for C6's stop conditions at concrete inputs. -/
theorem get_listing_urls_stop_witness :
    listingLoop scenarioFetch "b" 0 7 [] = ([], 7) :=
  get_listing_urls_stop.1 scenarioFetch "b" 0 7 [] (by decide)

/-! ### C5 -/

/-- Number of `Documents` rows whose trimmed key equals `k`. -/
def docsKeyCount (rows : List DocsRow) (k : String) : Nat :=
  (rows.filter (fun r => pyStrip r.key = k)).length

theorem pyStripList_idem (l : List Char) :
    pyStripList (pyStripList l) = pyStripList l := by
  unfold pyStripList
  have hd : ((l.dropWhile Char.isWhitespace).rdropWhile Char.isWhitespace).dropWhile
      Char.isWhitespace = (l.dropWhile Char.isWhitespace).rdropWhile Char.isWhitespace := by
    rw [List.dropWhile_eq_self_iff]
    intro hl
    have hpre := List.rdropWhile_prefix Char.isWhitespace (l.dropWhile Char.isWhitespace)
    have hlen : 0 < (l.dropWhile Char.isWhitespace).length :=
      Nat.lt_of_lt_of_le hl hpre.length_le
    have hget : ((l.dropWhile Char.isWhitespace).rdropWhile Char.isWhitespace).get ⟨0, hl⟩ =
        (l.dropWhile Char.isWhitespace).get ⟨0, hlen⟩ := by
      simp only [List.get_eq_getElem]
      exact hpre.getElem hl
    rw [hget]
    exact List.dropWhile_get_zero_not Char.isWhitespace l hlen
  rw [hd, List.rdropWhile_idempotent]

theorem pyStrip_idem (s : String) : pyStrip (pyStrip s) = pyStrip s :=
  congrArg String.mk (pyStripList_idem s.data)

theorem read_existing_append (rows : List DocsRow) (row : DocsRow) (hk : row.key ≠ "") :
    read_existing_lot_keys (rows ++ [row]) =
      insert (pyStrip row.key) (read_existing_lot_keys rows) := by
  unfold read_existing_lot_keys
  rw [List.filter_append, List.map_append, List.toFinset_append]
  have hone : List.filter (fun r => decide (r.key ≠ "")) [row] = [row] := by
    simp [List.filter, hk]
  rw [hone]
  apply Finset.ext
  intro x
  simp [or_comm]

theorem docsKeyCount_append (rows : List DocsRow) (row : DocsRow) (k : String) :
    docsKeyCount (rows ++ [row]) k =
      docsKeyCount rows k + (if pyStrip row.key = k then 1 else 0) := by
  unfold docsKeyCount
  rw [List.filter_append, List.length_append]
  congr 1
  by_cases h : pyStrip row.key = k <;> simp [List.filter, h]

theorem mem_read_existing (rows : List DocsRow) (k : String) :
    k ∈ read_existing_lot_keys rows ↔
      ∃ r ∈ rows, r.key ≠ "" ∧ pyStrip r.key = k := by
  unfold read_existing_lot_keys
  simp only [List.mem_toFinset, List.mem_map, List.mem_filter, decide_eq_true_eq]
  constructor
  · rintro ⟨r, ⟨hr, hk⟩, heq⟩
    exact ⟨r, hr, hk, heq⟩
  · rintro ⟨r, hr, hk, heq⟩
    exact ⟨r, ⟨hr, hk⟩, heq⟩

theorem docsKeyCount_eq_zero (rows : List DocsRow) (k : String) (hk : k ≠ "")
    (h : k ∉ read_existing_lot_keys rows) : docsKeyCount rows k = 0 := by
  rw [docsKeyCount, List.length_eq_zero, List.filter_eq_nil_iff]
  intro r hr
  simp only [decide_eq_true_eq]
  intro hpr
  apply h
  rw [mem_read_existing]
  refine ⟨r, hr, ?_, hpr⟩
  intro hempty
  rw [hempty] at hpr
  exact hk hpr.symm

theorem exportStep_docs_inv (st : XWorkbook × Finset String) (rec : RecIn)
    (hkeys : st.2 = read_existing_lot_keys st.1.docsRows)
    (hinv : ∀ k, k ≠ "" → docsKeyCount st.1.docsRows k ≤ 1) :
    (exportStep st rec).2 = read_existing_lot_keys (exportStep st rec).1.docsRows ∧
    (∀ k, k ≠ "" → docsKeyCount (exportStep st rec).1.docsRows k ≤ 1) := by
  unfold exportStep
  by_cases h1 : lotKeyOf rec = "" ∨ docsCountOf rec = 0
  · rw [if_pos h1]
    exact ⟨hkeys, hinv⟩
  · rw [if_neg h1]
    have hlk : lotKeyOf rec ≠ "" := fun h => h1 (Or.inl h)
    by_cases h2 : lotKeyOf rec ∈ st.2
    · rw [if_pos h2]
      exact ⟨hkeys, hinv⟩
    · rw [if_neg h2]
      have hstrip : pyStrip (lotKeyOf rec) = lotKeyOf rec := pyStrip_idem _
      have hks : st.2 = read_existing_lot_keys st.1.docsRows := hkeys
      constructor
      · show insert (lotKeyOf rec) st.2 = read_existing_lot_keys
          (st.1.docsRows ++ [⟨lotKeyOf rec, _⟩])
        rw [read_existing_append _ _ hlk]
        rw [hstrip, hks]
      · intro k hknz
        show docsKeyCount (st.1.docsRows ++ [⟨lotKeyOf rec, _⟩]) k ≤ 1
        rw [docsKeyCount_append]
        by_cases hkk : k = lotKeyOf rec
        · have h0 : docsKeyCount st.1.docsRows k = 0 :=
            docsKeyCount_eq_zero st.1.docsRows k hknz (by rw [hkk, ← hks]; exact h2)
          rw [h0]
          split <;> omega
        · have : ¬(pyStrip (lotKeyOf rec) = k) := by
            rw [hstrip]
            exact fun hh => hkk hh.symm
          rw [if_neg this]
          exact hinv k hknz

theorem foldl_exportStep_inv (recs : List RecIn) (st : XWorkbook × Finset String)
    (hkeys : st.2 = read_existing_lot_keys st.1.docsRows)
    (hinv : ∀ k, k ≠ "" → docsKeyCount st.1.docsRows k ≤ 1) :
    (recs.foldl exportStep st).2 =
      read_existing_lot_keys (recs.foldl exportStep st).1.docsRows ∧
    (∀ k, k ≠ "" → docsKeyCount (recs.foldl exportStep st).1.docsRows k ≤ 1) := by
  induction recs generalizing st with
  | nil => exact ⟨hkeys, hinv⟩
  | cons r t ih =>
    have h := exportStep_docs_inv st r hkeys hinv
    exact ih (exportStep st r) h.1 h.2

/-- First record of the same-key export scenario. -/
def scenarioRec1 : RecIn :=
  ⟨[("Номер аукциона / лота", "5/7")], [("d1", "http://a")]⟩

/-- Second record of the same-key export scenario. -/
def scenarioRec2 : RecIn :=
  ⟨[("Номер аукциона / лота", "5/7")], [("d2", "http://b")]⟩

/-- C5: exporting preserves "at most one Documents row per non-empty
trimmed key" (a key already present — from a prior run or an earlier record
of the same batch — reuses the existing row index instead of appending),
and in the concrete scenario two same-key records with one attachment each
produce exactly one Documents row and two primary rows both linking to it
(sheet row 2). -/
theorem append_rows_docs_unique :
    (∀ (wb : XWorkbook) (recs : List RecIn),
      (∀ k, k ≠ "" → docsKeyCount wb.docsRows k ≤ 1) →
      (∀ k, k ≠ "" →
        docsKeyCount (append_rows_with_documents recs wb).docsRows k ≤ 1)) ∧
    (append_rows_with_documents [scenarioRec1, scenarioRec2]
        ⟨[], []⟩).docsRows.map (fun r => r.key) = ["5/7"] ∧
    (append_rows_with_documents [scenarioRec1, scenarioRec2]
        ⟨[], []⟩).mainRows.map (fun mr => mr.docsLink) = [some 2, some 2] ∧
    (append_rows_with_documents [scenarioRec1, scenarioRec2]
        ⟨[], []⟩).mainRows.length = 2 := by
  refine ⟨?_, by decide, by decide, by decide⟩
  intro wb recs hinv
  unfold append_rows_with_documents
  by_cases hre : recs.isEmpty
  · rw [if_pos hre]
    exact hinv
  · rw [if_neg hre]
    exact (foldl_exportStep_inv recs (wb, read_existing_lot_keys wb.docsRows) rfl hinv).2

/-- Witness for C5 at the concrete two-record scenario (empty prior
workbook). -/
theorem append_rows_docs_unique_witness :
    docsKeyCount (append_rows_with_documents [scenarioRec1, scenarioRec2]
      ⟨[], []⟩).docsRows "5/7" ≤ 1 :=
  append_rows_docs_unique.1 ⟨[], []⟩ [scenarioRec1, scenarioRec2]
    (fun k hk => by simp [docsKeyCount]) "5/7" (by decide)

/-! ### Remaining witnesses -/

/-- Witness for C2 at a concrete list and shard count. -/
theorem chunk_list_spec_witness :
    (chunk_list [10, 20, 30, 40, 50] 3).length = 3 ∧
    (chunk_list [10, 20, 30, 40, 50] 3).flatten.Perm [10, 20, 30, 40, 50] := by
  have h := chunk_list_spec [10, 20, 30, 40, 50] 3 (by decide)
  exact ⟨h.1, h.2.2.1⟩

/-- A concrete fetch for the C4 witness: one parsable page, one failing
url. -/
def witnessFetch : String → Option Soup := fun u =>
  if u = "u1" then some priceSoup else none

/-- Witness for C4 at a concrete run. -/
theorem run_seen_update_witness :
    runSeenUpdate {"a"} ["u1", "u2"] witnessFetch =
      {"a"} ∪ (["u1", "u2"].filter
        (fun u => ((parse_lot_page witnessFetch u).2).isSome)).toFinset :=
  (run_seen_update {"a"} ["u1", "u2"] witnessFetch (by decide)).1

end Bankrot
